import Mathlib

/-!
Shallow embedding of the card-format dispatch and slot-mapping subsystem of the
Anki MCQ Importer add-on (`__init__.py`), together with theorems checking the
natural-language specification against it.

Python strings are modelled as Lean `String`; Python `str.strip()` is modelled
over the ASCII whitespace characters, which covers every string this add-on
handles.  The three built-in prompt texts are multi-page free-text literals
whose exact content no verified behaviour inspects, so definitions that carry
them take the prompt strings as parameters (theorems therefore hold for the
actual literals in particular).
-/

namespace AnkiImporter

/-- ASCII whitespace characters removed by Python `str.strip()`. -/
def isPySpace (c : Char) : Bool :=
  c = ' ' || c = '\t' || c = '\n' || c = '\r' || c = Char.ofNat 11 || c = Char.ofNat 12

/-- Remove trailing characters satisfying `p`. -/
def trimRightL (p : Char → Bool) (l : List Char) : List Char :=
  (l.reverse.dropWhile p).reverse

/-- Python `str.strip()` on a character list. -/
def pyStripL (l : List Char) : List Char :=
  trimRightL isPySpace (l.dropWhile isPySpace)

/-- Python `str.strip()`. -/
def pyStrip (s : String) : String := ⟨pyStripL s.data⟩

/-- Python `str.split(sep)` for a one-character separator, on character lists.
`split` of the empty string is `[""]`, as in Python. -/
def splitCharL (sep : Char) : List Char → List (List Char)
  | [] => [[]]
  | c :: rest =>
    if c = sep then [] :: splitCharL sep rest
    else
      match splitCharL sep rest with
      | [] => [[c]]
      | h :: t => (c :: h) :: t

/-- Python `str.split(sep)` for a one-character separator. -/
def splitChar (sep : Char) (s : String) : List String :=
  (splitCharL sep s.data).map (fun l => ⟨l⟩)

/-- Does `hay` begin with `needle`? -/
def leadsWith : List Char → List Char → Bool
  | [], _ => true
  | _ :: _, [] => false
  | a :: as, b :: bs => a = b && leadsWith as bs

/-- Python `needle in hay` substring containment, on character lists. -/
def containsSubL (needle : List Char) : List Char → Bool
  | [] => needle.isEmpty
  | c :: rest => leadsWith needle (c :: rest) || containsSubL needle rest

/-- Python `needle in hay` substring containment. -/
def containsSub (needle hay : String) : Bool := containsSubL needle.data hay.data

/-- Python `str.lower()` (ASCII). -/
def lowerS (s : String) : String := ⟨s.data.map Char.toLower⟩

/-- Python `line.startswith('#')`. -/
def startsWithHash (s : String) : Bool :=
  match s.data with
  | '#' :: _ => true
  | _ => false

/-- Python `c in s` for a single character. -/
def hasChar (c : Char) (s : String) : Bool := s.data.contains c

/-- The pipe-separated columns of a line: `line.split('|')`. -/
def pipeCols (s : String) : List String := splitChar '|' s

/-- Shared per-line skip test of all three parsers:
`if not line or line.startswith('#') or '|' not in line: continue`. -/
def skipLine (l : String) : Bool :=
  l == "" || startsWithHash l || !(hasChar '|' l)

/-- `_split_pipe_line`: split a pipe-delimited line, return the parts (each
stripped) when the count meets the minimum, else `None`. -/
def split_pipe_line (line : String) (expected_min : Nat) : Option (List String) :=
  if (pipeCols line).length < expected_min then none
  else some ((pipeCols line).map pyStrip)

/-- Card record produced by `parse_mcq_response` for one line (a Python dict
with keys subtopic/question/choices/answer/extra). -/
structure MCQCard where
  subtopic : String
  question : String
  choices : String
  answer : String
  extra : String
deriving DecidableEq, Repr

/-- Card record produced by `parse_cloze_response` for one line. -/
structure ClozeCard where
  subtopic : String
  text : String
  extra : String
deriving DecidableEq, Repr

/-- Card record produced by `parse_basic_response` for one line. -/
structure BasicCard where
  subtopic : String
  question : String
  answer : String
  extra : String
deriving DecidableEq, Repr

/-- The destructuring step of `parse_mcq_response` on the (already stripped)
parts of one line: `subtopic, question, choices, correct, extra = parts[0..4]`,
rejected when question or choices is empty. -/
def mcqFromParts : List String → Option MCQCard
  | subtopic :: question :: choices :: correct :: extra :: _ =>
    if question = "" ∨ choices = "" then none
    else some ⟨subtopic, question, choices, correct, extra⟩
  | _ => none

/-- One loop iteration of `parse_mcq_response` on a single line (the loop
first rebinds `line = line.strip()`). -/
def parse_mcq_line (line : String) : Option MCQCard :=
  if skipLine (pyStrip line) then none
  else
    match split_pipe_line (pyStrip line) 5 with
    | none => none
    | some parts => mcqFromParts parts

/-- `response_text.strip().split('\n')`, the line sequence every parser
iterates over. -/
def pyLines (text : String) : List String := splitChar '\n' (pyStrip text)

/-- `parse_mcq_response`: parse MCQ output `Subtopic|Question|Choices|Correct|Extra`. -/
def parse_mcq_response (response_text : String) : List MCQCard :=
  (pyLines response_text).filterMap parse_mcq_line

/-- The cloze blank-marker substring `{{c` (written with escaped braces). -/
def clozeMarker : String := "\x7b\x7bc"

/-- The destructuring step of `parse_cloze_response` on the stripped parts of
one line: subtopic = parts[0], text = parts[1],
extra = parts[2] if len(parts) > 2 else ""; rejected when the text is empty or
lacks the `{{c` marker. -/
def clozeFromParts : List String → Option ClozeCard
  | subtopic :: text :: rest =>
    let extra := match rest with | e :: _ => e | [] => ""
    if text = "" ∨ containsSub clozeMarker text = false then none
    else some ⟨subtopic, text, extra⟩
  | _ => none

/-- One loop iteration of `parse_cloze_response` on a single line (note the
minimum column count handed to `_split_pipe_line` is 3). -/
def parse_cloze_line (line : String) : Option ClozeCard :=
  if skipLine (pyStrip line) then none
  else
    match split_pipe_line (pyStrip line) 3 with
    | none => none
    | some parts => clozeFromParts parts

/-- `parse_cloze_response`: parse Cloze output `Subtopic|Text|Extra`. -/
def parse_cloze_response (response_text : String) : List ClozeCard :=
  (pyLines response_text).filterMap parse_cloze_line

/-- The destructuring step of `parse_basic_response` on the stripped parts of
one line: subtopic, front, back = parts[0..2],
extra = parts[3] if len(parts) > 3 else ""; rejected when front or back is
empty. -/
def basicFromParts : List String → Option BasicCard
  | subtopic :: front :: back :: rest =>
    let extra := match rest with | e :: _ => e | [] => ""
    if front = "" ∨ back = "" then none
    else some ⟨subtopic, front, back, extra⟩
  | _ => none

/-- One loop iteration of `parse_basic_response` on a single line (minimum
column count 4). -/
def parse_basic_line (line : String) : Option BasicCard :=
  if skipLine (pyStrip line) then none
  else
    match split_pipe_line (pyStrip line) 4 with
    | none => none
    | some parts => basicFromParts parts

/-- `parse_basic_response`: parse Basic output `Subtopic|Front|Back|Extra`. -/
def parse_basic_response (response_text : String) : List BasicCard :=
  (pyLines response_text).filterMap parse_basic_line

/-- The characters removed inside each `::`-segment by `sanitize_deck_name`
(the regex class in the source omits the colon). -/
def illegalDeckChar (c : Char) : Bool :=
  c = '\\' || c = '/' || c = '*' || c = '?' || c = '"' || c = '<' || c = '>' || c = '|'

/-- Python `name.split('::')`: leftmost, non-overlapping split on the
two-character separator. -/
def splitDColonsL : List Char → List (List Char)
  | [] => [[]]
  | ':' :: ':' :: rest => [] :: splitDColonsL rest
  | c :: rest =>
    match splitDColonsL rest with
    | [] => [[c]]
    | h :: t => (c :: h) :: t

/-- Python `sep.join(parts)` at the character-list level. -/
def joinSep (sep : List Char) : List (List Char) → List Char
  | [] => []
  | [x] => x
  | x :: y :: t => x ++ sep ++ joinSep sep (y :: t)

/-- The surviving segments of `sanitize_deck_name`: each `::`-segment with the
illegal characters deleted and then stripped, keeping only those that are
non-empty afterwards. -/
def sanitizedParts (name : String) : List (List Char) :=
  (splitDColonsL name.data).filterMap (fun part =>
    if pyStripL (part.filter (fun c => !(illegalDeckChar c))) = [] then none
    else some (pyStripL (part.filter (fun c => !(illegalDeckChar c)))))

/-- `sanitize_deck_name`: split on `::`, delete the illegal characters inside
each segment, strip it, drop segments that became empty, rejoin with `::`, and
fall back to "Imported" when nothing survives. -/
def sanitize_deck_name (name : String) : String :=
  if joinSep [':', ':'] (sanitizedParts name) = [] then "Imported"
  else ⟨joinSep [':', ':'] (sanitizedParts name)⟩

/-- The fuzzy keyword `FieldMappingWidget.__init__` derives from a slot label:
`slot_label.lower().split('/')[0].strip()`. -/
def keywordOf (slot_label : String) : String :=
  pyStrip ⟨(lowerS slot_label).data.takeWhile (fun c => c ≠ '/')⟩

/-- The combo-box selection `FieldMappingWidget.__init__` makes for one slot:
exact match of the stored mapping first (`combo.findText`), else the first
field whose lowercased name contains the slot keyword, else the combo box
stays on item 0; `none` when the note type has no fields. -/
def widgetSelect (slot_label current : String) (anki_fields : List String) : Option Nat :=
  match anki_fields.findIdx? (fun f => f == current) with
  | some i => some i
  | none =>
    if anki_fields.isEmpty then none
    else
      match anki_fields.findIdx? (fun f => containsSub (keywordOf slot_label) (lowerS f)) with
      | some i => some i
      | none => some 0

/-- `SLOT_META` restricted to (slot key, slot label); the description column is
never consulted by the resolution logic. -/
def slotMeta (fmt : String) : List (String × String) :=
  if fmt = "mcq" then
    [("question", "Question"), ("choices", "Multiple Choice"),
     ("answer", "Correct Answers"), ("extra", "Extra / Notes")]
  else if fmt = "cloze" then
    [("text", "Text"), ("extra", "Extra / Notes")]
  else if fmt = "basic" then
    [("question", "Front"), ("answer", "Back"), ("extra", "Extra / Notes")]
  else []

/-- Python `dict.get(key, default)` on an association list. -/
def lookupD (m : List (String × String)) (k d : String) : String :=
  match m.lookup k with
  | some v => v
  | none => d

/-- One resolution pass of `FieldMappingWidget.__init__`: every slot of the
format is resolved independently (the loop keeps no record of fields chosen by
earlier slots). -/
def widgetMapping (fmt : String) (field_map : List (String × String))
    (anki_fields : List String) : List (String × Option Nat) :=
  (slotMeta fmt).map (fun s => (s.1, widgetSelect s.2 (lookupD field_map s.1 "") anki_fields))

/-- `resolve_field` from `run_importer`: exact field-map match first, else the
positional fallback field. -/
def resolve_field (field_map : List (String × String)) (names : List String)
    (slot_key : String) (fallback_idx : Nat) : Option String :=
  match field_map.lookup slot_key with
  | some m => if m ≠ "" ∧ m ∈ names then some m else names.get? fallback_idx
  | none => names.get? fallback_idx

/-- Anki note field assignment `note[f] = v`: replace the value of field `f`
(fields of a note type are unique), appending when absent. -/
def setField : List (String × String) → String → String → List (String × String)
  | [], f, v => [(f, v)]
  | (k, w) :: rest, f, v =>
    if k = f then (f, v) :: rest else (k, w) :: setField rest f v

/-- Run a sequence of guarded assignments `if f_x: note[f_x] = v_x` in order. -/
def applyAssigns : List (String × String) → List (Option String × String) → List (String × String)
  | st, [] => st
  | st, (none, _) :: rest => applyAssigns st rest
  | st, (some f, v) :: rest => applyAssigns (setField st f v) rest

/-- The note-writing step of `run_importer` for an MCQ card record: the four
guarded assignments in source order (question, choices, answer, extra; the
image tag is appended to the extra slot's content). -/
def noteFieldsMCQ (f_question f_choices f_answer f_extra : Option String)
    (card : MCQCard) (img_tag : String) : List (String × String) :=
  applyAssigns [] [(f_question, card.question), (f_choices, card.choices),
                   (f_answer, card.answer), (f_extra, card.extra ++ img_tag)]

/-- The value the LAST executed assignment in a guarded-assignment sequence
gives to field `f` (used to characterise `applyAssigns`). -/
def lastAssign (f : String) : List (Option String × String) → Option String
  | [] => none
  | (of, v) :: rest =>
    match lastAssign f rest with
    | some w => some w
    | none => if of = some f then some v else none

/-- The note-writing step of `run_importer` for a cloze card record. -/
def noteFieldsCloze (f_text f_extra : Option String)
    (card : ClozeCard) (img_tag : String) : List (String × String) :=
  applyAssigns [] [(f_text, card.text), (f_extra, card.extra ++ img_tag)]

/-- The note-writing step of `run_importer` for a basic card record. -/
def noteFieldsBasic (f_question f_answer f_extra : Option String)
    (card : BasicCard) (img_tag : String) : List (String × String) :=
  applyAssigns [] [(f_question, card.question), (f_answer, card.answer),
                   (f_extra, card.extra ++ img_tag)]

/-- The keys of `DEFAULT_PROFILES` (the built-in profiles). -/
def builtinKeys : List String := ["MCQ", "Cloze", "Basic"]

/-- A profile as stored in the configuration. -/
structure ProfileData where
  display_name : String
  format : String
  prompt : String
  field_map : List (String × String)
deriving DecidableEq, Repr

/-- `DEFAULT_PROFILES`, parametrised by the three built-in prompt literals
(multi-page free text that no verified behaviour inspects). -/
def defaultProfiles (mcqPrompt clozePrompt basicPrompt : String) :
    List (String × ProfileData) :=
  [("MCQ", ⟨"Multiple Choice (MCQ)", "mcq", mcqPrompt,
      [("question", "Question"), ("choices", "Multiple Choice"),
       ("answer", "Correct Answers"), ("extra", "Extra")]⟩),
   ("Cloze", ⟨"Cloze Deletion", "cloze", clozePrompt,
      [("text", "Text"), ("extra", "Extra")]⟩),
   ("Basic", ⟨"Basic (Front / Back)", "basic", basicPrompt,
      [("question", "Front"), ("answer", "Back"), ("extra", "Extra")]⟩)]

/-- `GeminiSettings._delete_profile`, confirmed path (`askUser` answered yes):
built-in keys are rejected with a warning and nothing changes; a custom key is
removed and the active key falls back to "MCQ" when it pointed at the deleted
profile.  Result: (profiles, active key, whether the deletion happened). -/
def delete_profile {α : Type} (profiles : List (String × α)) (active key : String) :
    List (String × α) × String × Bool :=
  if key ∈ builtinKeys then (profiles, active, false)
  else (profiles.filter (fun p => p.1 != key),
        (if active = key then "MCQ" else active), true)

/-- The two configuration keys the module-level load/migration code touches;
`none` models a JSON document lacking the key. -/
structure ConfigDoc where
  profiles : Option (List (String × ProfileData))
  active_profile : Option String
deriving DecidableEq

/-- `get_default_config`, restricted to the keys `ConfigDoc` models. -/
def get_default_config (mcqP clozeP basicP : String) : ConfigDoc :=
  ⟨some (defaultProfiles mcqP clozeP basicP), some "MCQ"⟩

/-- The module-level configuration load and migration: a missing config is
replaced by the default; a config whose `profiles` key is absent gets the full
default profile set and active key "MCQ"; any other config is left as is. -/
def migrateConfig (mcqP clozeP basicP : String) (stored : Option ConfigDoc) : ConfigDoc :=
  match stored with
  | none => get_default_config mcqP clozeP basicP
  | some c =>
    match c.profiles with
    | none => { c with profiles := some (defaultProfiles mcqP clozeP basicP),
                       active_profile := some "MCQ" }
    | some _ => c

/-- The outcome of one `get_gemini_response` call, by source branch. -/
inductive ApiOutcome where
  | encodeFail (path : String)
  | httpErr (code : Nat) (body : String)
  | netErr (desc : String)
  | noCandidates
  | safetyFiltered
  | invalidStructure
  | emptyText
  | ok (text : String)
deriving DecidableEq

/-- The error message `get_gemini_response` returns for each failure outcome
(`none` on success), with the exact message strings of the source. -/
def apiMessage : ApiOutcome → Option String
  | .encodeFail p => some ("Failed to encode image: " ++ p)
  | .httpErr 400 body => some ("Bad request (400): " ++ body)
  | .httpErr 403 _ => some "API key invalid or unauthorized (403)"
  | .httpErr 429 _ => some "Rate limit exceeded (429). Please wait and try again."
  | .httpErr 500 _ => some "Gemini API server error (500). Please try again."
  | .httpErr code body => some ("HTTP Error " ++ toString code ++ ": " ++ body)
  | .netErr d => some ("Network error: " ++ d)
  | .noCandidates => some "No response candidates from API"
  | .safetyFiltered => some "Content filtered by safety settings"
  | .invalidStructure => some "Invalid response structure from API"
  | .emptyText => some "Empty response from API"
  | .ok _ => none

/-- The per-file abort test of `run_importer`:
`"403" in response or "invalid" in response.lower()`. -/
def shouldAbort (response : String) : Bool :=
  containsSub "403" response || containsSub "invalid" (lowerS response)

/-- Whether the failure message of an AI outcome makes `run_importer` abort
the whole run (`false` for a successful outcome). -/
def abortsOn (o : ApiOutcome) : Bool :=
  match apiMessage o with
  | some m => shouldAbort m
  | none => false

/-- A request part sent to the AI endpoint. -/
inductive GPart where
  | text (s : String)
  | image (b64 : String)
deriving DecidableEq

/-- The `parts` list `get_gemini_response` builds: the prompt, then (only when
a previous image is supplied) a context header and the one previous image,
then the target header and the current image. -/
def geminiParts (prompt : String) (prev_b64 : Option String) (current_b64 : String) :
    List GPart :=
  [GPart.text prompt]
    ++ (match prev_b64 with
        | some p => [GPart.text "--- CONTEXT ONLY (Previous Page) ---", GPart.image p]
        | none => [])
    ++ [GPart.text "--- TARGET IMAGE (Generate Cards) ---", GPart.image current_b64]

/-- Number of inline images in a request. -/
def imageCount (parts : List GPart) : Nat :=
  (parts.filter (fun p => match p with | GPart.image _ => true | _ => false)).length

/-- What the `run_importer` main loop observes about one file: whether the
media add succeeded, the AI call's outcome, and the length of the parsed card
list (per-card note creation does not influence control flow or the context
image). -/
structure FileRun where
  mediaOk : Bool
  response : ApiOutcome
  cardCount : Nat
deriving DecidableEq

/-- The `run_importer` main loop, reduced to the AI calls it issues: for each
file it records `(index, context index)` where the context index is the
`prev_file_path` in force at the call.  Mirrors the source's control flow: a
media failure skips the call; a failed call aborts everything when
`shouldAbort` fires on its message and otherwise continues; `prev_file_path`
is updated only at the end of an iteration that was not cut short by
`continue`, i.e. only for a file whose call succeeded with a non-empty parse. -/
def importCallsAux : List FileRun → Option Nat → Nat → List (Nat × Option Nat)
  | [], _, _ => []
  | f :: rest, prev, i =>
    if f.mediaOk = false then importCallsAux rest prev (i + 1)
    else
      match apiMessage f.response with
      | some msg =>
        (i, prev) :: (if shouldAbort msg then [] else importCallsAux rest prev (i + 1))
      | none =>
        (i, prev) :: (if f.cardCount = 0 then importCallsAux rest prev (i + 1)
                      else importCallsAux rest (some i) (i + 1))

/-- The AI calls of a whole run (`prev_file_path` starts as `None`). -/
def importCalls (files : List FileRun) : List (Nat × Option Nat) :=
  importCallsAux files none 0

/-- A file the loop processes end to end: media added, AI call succeeded, and
at least one card was parsed, so `prev_file_path` is updated to it. -/
def fullSuccess (f : FileRun) : Prop :=
  f.mediaOk = true ∧ apiMessage f.response = none ∧ f.cardCount ≠ 0

instance (f : FileRun) : Decidable (fullSuccess f) := by
  unfold fullSuccess; infer_instance

/-! ## Helper lemmas -/

theorem splitCharL_ne_nil (sep : Char) (l : List Char) : splitCharL sep l ≠ [] := by
  cases l with
  | nil => simp [splitCharL]
  | cons c rest =>
    simp only [splitCharL]
    split
    · simp
    · cases h : splitCharL sep rest <;> simp

theorem splitCharL_of_not_mem (sep : Char) (l : List Char) (h : sep ∉ l) :
    splitCharL sep l = [l] := by
  induction l with
  | nil => rfl
  | cons c rest ih =>
    have hc : ¬ c = sep := fun hcs => h (by simp [hcs])
    have hr : sep ∉ rest := fun hm => h (by simp [hm])
    simp only [splitCharL, if_neg hc, ih hr]

theorem dropWhile_head_false {p : Char → Bool} {c : Char} {t : List Char} :
    ∀ (l : List Char), l.dropWhile p = c :: t → p c = false := by
  intro l
  induction l with
  | nil => intro h; simp [List.dropWhile] at h
  | cons a l ih =>
    intro h
    by_cases hpa : p a = true
    · rw [List.dropWhile_cons_of_pos hpa] at h
      exact ih h
    · rw [List.dropWhile_cons_of_neg hpa] at h
      cases h
      simpa using hpa

theorem dropWhile_idem (p : Char → Bool) (l : List Char) :
    (l.dropWhile p).dropWhile p = l.dropWhile p := by
  cases h : l.dropWhile p with
  | nil => rfl
  | cons c t =>
    have := dropWhile_head_false l h
    rw [List.dropWhile_cons_of_neg (by simp [this])]

theorem dropWhile_suffix (p : Char → Bool) (l : List Char) :
    ∃ s, l = s ++ l.dropWhile p := by
  induction l with
  | nil => exact ⟨[], rfl⟩
  | cons a l ih =>
    by_cases hpa : p a = true
    · obtain ⟨s, hs⟩ := ih
      exact ⟨a :: s, by rw [List.dropWhile_cons_of_pos hpa]; simpa using hs⟩
    · exact ⟨[], by rw [List.dropWhile_cons_of_neg hpa]; simp⟩

theorem mem_of_mem_dropWhile {p : Char → Bool} {l : List Char} {c : Char}
    (h : c ∈ l.dropWhile p) : c ∈ l := by
  obtain ⟨s, hs⟩ := dropWhile_suffix p l
  rw [hs]
  exact List.mem_append_right s h

theorem mem_pyStripL {c : Char} {l : List Char} (h : c ∈ pyStripL l) : c ∈ l := by
  unfold pyStripL trimRightL at h
  rw [List.mem_reverse] at h
  have h1 := mem_of_mem_dropWhile h
  rw [List.mem_reverse] at h1
  exact mem_of_mem_dropWhile h1

theorem pyStripL_dropWhile (l : List Char) :
    (pyStripL l).dropWhile isPySpace = pyStripL l := by
  unfold pyStripL trimRightL
  obtain ⟨s, hs⟩ := dropWhile_suffix isPySpace (l.dropWhile isPySpace).reverse
  cases hw : ((l.dropWhile isPySpace).reverse.dropWhile isPySpace).reverse with
  | nil => simp
  | cons c t =>
    have h1 : l.dropWhile isPySpace =
        ((l.dropWhile isPySpace).reverse.dropWhile isPySpace).reverse ++ s.reverse := by
      conv_lhs => rw [← List.reverse_reverse (l.dropWhile isPySpace), hs]
      rw [List.reverse_append]
    rw [hw] at h1
    have hc : isPySpace c = false := dropWhile_head_false l (by simpa using h1)
    rw [List.dropWhile_cons_of_neg (by simp [hc])]

theorem pyStripL_idem (l : List Char) : pyStripL (pyStripL l) = pyStripL l := by
  conv_lhs => rw [pyStripL, pyStripL_dropWhile]
  unfold pyStripL trimRightL
  rw [List.reverse_reverse, dropWhile_idem]

theorem pyStrip_idem (s : String) : pyStrip (pyStrip s) = pyStrip s := by
  show (⟨pyStripL (pyStripL s.data)⟩ : String) = ⟨pyStripL s.data⟩
  rw [pyStripL_idem]

theorem pyLines_single {line : String} (h : ('\n') ∉ line.data) :
    pyLines line = [pyStrip line] := by
  have h2 : ('\n') ∉ (pyStrip line).data := fun hm => h (mem_pyStripL hm)
  show (splitCharL '\n' (pyStrip line).data).map (fun l => (⟨l⟩ : String)) = _
  rw [splitCharL_of_not_mem _ _ h2]
  rfl

theorem parse_mcq_line_strip (line : String) :
    parse_mcq_line (pyStrip line) = parse_mcq_line line := by
  unfold parse_mcq_line
  rw [pyStrip_idem]

theorem parse_cloze_line_strip (line : String) :
    parse_cloze_line (pyStrip line) = parse_cloze_line line := by
  unfold parse_cloze_line
  rw [pyStrip_idem]

/-! ## Claim theorems -/

/-- C1: every line that after stripping is non-empty, does not start with
`#`, contains `|`, splits into at least five pipe-separated columns, and
whose stripped question (column 1) and choices (column 2) are non-empty, is
turned by the MCQ parser into exactly one card record whose subtopic,
question, choices, answer and extra slots are the stripped values of columns
0 through 4 in order. -/
theorem mcq_wellformed_line_one_card (line : String)
    (hnl : ('\n') ∉ line.data)
    (hne : pyStrip line ≠ "")
    (hhash : startsWithHash (pyStrip line) = false)
    (hpipe : hasChar '|' (pyStrip line) = true)
    (hlen : 5 ≤ (pipeCols (pyStrip line)).length)
    (hq : pyStrip ((pipeCols (pyStrip line)).getD 1 "") ≠ "")
    (hc : pyStrip ((pipeCols (pyStrip line)).getD 2 "") ≠ "") :
    parse_mcq_line line = some
      ⟨pyStrip ((pipeCols (pyStrip line)).getD 0 ""),
       pyStrip ((pipeCols (pyStrip line)).getD 1 ""),
       pyStrip ((pipeCols (pyStrip line)).getD 2 ""),
       pyStrip ((pipeCols (pyStrip line)).getD 3 ""),
       pyStrip ((pipeCols (pyStrip line)).getD 4 "")⟩
    ∧ parse_mcq_response line =
      [⟨pyStrip ((pipeCols (pyStrip line)).getD 0 ""),
        pyStrip ((pipeCols (pyStrip line)).getD 1 ""),
        pyStrip ((pipeCols (pyStrip line)).getD 2 ""),
        pyStrip ((pipeCols (pyStrip line)).getD 3 ""),
        pyStrip ((pipeCols (pyStrip line)).getD 4 "")⟩] := by
  have hskip : skipLine (pyStrip line) = false := by
    simp [skipLine, hhash, hpipe, hne]
  rcases hcols : pipeCols (pyStrip line) with _ | ⟨c0, _ | ⟨c1, _ | ⟨c2, _ | ⟨c3, _ | ⟨c4, rest⟩⟩⟩⟩⟩ <;>
    rw [hcols] at hlen hq hc <;> try simp at hlen
  simp only [List.getD_cons_zero, List.getD_cons_succ] at hq hc ⊢
  have hsp : split_pipe_line (pyStrip line) 5 = some
      (pyStrip c0 :: pyStrip c1 :: pyStrip c2 :: pyStrip c3 :: pyStrip c4 :: rest.map pyStrip) := by
    unfold split_pipe_line
    rw [hcols]
    rw [if_neg (by simp)]
    simp
  have hline : parse_mcq_line line =
      some ⟨pyStrip c0, pyStrip c1, pyStrip c2, pyStrip c3, pyStrip c4⟩ := by
    unfold parse_mcq_line
    rw [hskip, hsp]
    simp only [Bool.false_eq_true, if_false]
    simp [mcqFromParts, hq, hc]
  refine ⟨hline, ?_⟩
  have hstrip : parse_mcq_line (pyStrip line) =
      some ⟨pyStrip c0, pyStrip c1, pyStrip c2, pyStrip c3, pyStrip c4⟩ := by
    rw [parse_mcq_line_strip]; exact hline
  unfold parse_mcq_response
  rw [pyLines_single hnl]
  simp [List.filterMap_cons, hstrip]

/-- Witness for C1: a concrete well-formed MCQ line yields exactly its one
card record. -/
theorem mcq_wellformed_line_one_card_witness :
    parse_mcq_response "T|Q|C|A|E" = [⟨"T", "Q", "C", "A", "E"⟩] := by
  have h := (mcq_wellformed_line_one_card "T|Q|C|A|E" (by decide) (by decide) (by decide)
    (by decide) (by decide) (by decide) (by decide)).2
  exact h.trans (by decide)

/-- C10: a line with more pipe-separated columns than a format's layout is
still accepted, and the columns beyond the layout's last position appear in
no slot: each destructuring step depends only on the first 5 (MCQ) / 3
(cloze) / 4 (basic) columns, `_split_pipe_line` accepts any column count at
or above the minimum, and the concrete 6-column MCQ line (and its cloze and
basic analogues) parse to the record of the leading columns only. -/
theorem extra_columns_discarded :
    (∀ parts : List String, mcqFromParts parts = mcqFromParts (parts.take 5))
    ∧ (∀ parts : List String, clozeFromParts parts = clozeFromParts (parts.take 3))
    ∧ (∀ parts : List String, basicFromParts parts = basicFromParts (parts.take 4))
    ∧ (∀ (line : String) (k : Nat), k ≤ (pipeCols line).length →
        split_pipe_line line k = some ((pipeCols line).map pyStrip))
    ∧ parse_mcq_response "A|B|C|D|E|F" = [⟨"A", "B", "C", "D", "E"⟩]
    ∧ parse_cloze_response "S|x\x7b\x7bc1::y\x7d\x7d|E|EXTRA2" =
        [⟨"S", "x\x7b\x7bc1::y\x7d\x7d", "E"⟩]
    ∧ parse_basic_response "S|F|B|E|X" = [⟨"S", "F", "B", "E"⟩] := by
  refine ⟨?_, ?_, ?_, ?_, by decide, by decide, by decide⟩
  · intro parts
    rcases parts with _ | ⟨a, _ | ⟨b, _ | ⟨c, _ | ⟨d, _ | ⟨e, t⟩⟩⟩⟩⟩ <;> rfl
  · intro parts
    rcases parts with _ | ⟨a, _ | ⟨b, _ | ⟨c, t⟩⟩⟩ <;> rfl
  · intro parts
    rcases parts with _ | ⟨a, _ | ⟨b, _ | ⟨c, _ | ⟨d, t⟩⟩⟩⟩ <;> rfl
  · intro line k h
    unfold split_pipe_line
    rw [if_neg (by omega)]

/-- Witness for C10: a concrete line whose column count exceeds the minimum
is accepted by `_split_pipe_line`. -/
theorem extra_columns_discarded_witness :
    split_pipe_line "a|b|c" 2 = some ((pipeCols "a|b|c").map pyStrip) :=
  extra_columns_discarded.2.2.2.1 "a|b|c" 2 (by decide)

/-- Counterexample to C2: a two-column fill-in-blank line with non-empty text
containing the blank marker yields no card record at all (the claim demands
exactly one), because `parse_cloze_response` hands `_split_pipe_line` a
minimum of 3, not 2. -/
theorem cloze_two_columns_rejected :
    parse_cloze_response "Sub|has \x7b\x7bc1::x\x7d\x7d" = []
    ∧ (pipeCols "Sub|has \x7b\x7bc1::x\x7d\x7d").length = 2
    ∧ pyStrip "has \x7b\x7bc1::x\x7d\x7d" ≠ ""
    ∧ containsSub clozeMarker (pyStrip "has \x7b\x7bc1::x\x7d\x7d") = true := by
  refine ⟨by decide, by decide, by decide, by decide⟩

/-- C2 as amended: the fill-in-blank minimum column count is 3 (subtopic,
text, extra all required by the count check); any line splitting into fewer
than 3 columns is rejected, and a line with at least 3 columns is rejected
exactly when its stripped text is empty or lacks the blank-marker substring
`{{c`, in which case the extra slot is the stripped third column. -/
theorem cloze_parser_min_three :
    (∀ line : String, (pipeCols (pyStrip line)).length < 3 → parse_cloze_line line = none)
    ∧ (∀ line : String, pyStrip line ≠ "" → startsWithHash (pyStrip line) = false →
        hasChar '|' (pyStrip line) = true → 3 ≤ (pipeCols (pyStrip line)).length →
        parse_cloze_line line =
          (if pyStrip ((pipeCols (pyStrip line)).getD 1 "") = ""
              ∨ containsSub clozeMarker (pyStrip ((pipeCols (pyStrip line)).getD 1 "")) = false
           then none
           else some ⟨pyStrip ((pipeCols (pyStrip line)).getD 0 ""),
                      pyStrip ((pipeCols (pyStrip line)).getD 1 ""),
                      pyStrip ((pipeCols (pyStrip line)).getD 2 "")⟩)) := by
  constructor
  · intro line h
    have hsp : split_pipe_line (pyStrip line) 3 = none := by
      unfold split_pipe_line
      rw [if_pos h]
    unfold parse_cloze_line
    rw [hsp]
    cases hsk : skipLine (pyStrip line) <;> simp
  · intro line hne hhash hpipe hlen
    have hskip : skipLine (pyStrip line) = false := by
      simp [skipLine, hhash, hpipe, hne]
    rcases hcols : pipeCols (pyStrip line) with _ | ⟨c0, _ | ⟨c1, _ | ⟨c2, rest⟩⟩⟩ <;>
      rw [hcols] at hlen <;> try simp at hlen
    simp only [List.getD_cons_zero, List.getD_cons_succ]
    have hsp : split_pipe_line (pyStrip line) 3 = some
        (pyStrip c0 :: pyStrip c1 :: pyStrip c2 :: rest.map pyStrip) := by
      unfold split_pipe_line
      rw [hcols]
      rw [if_neg (by simp)]
      simp
    unfold parse_cloze_line
    rw [hskip, hsp]
    simp only [Bool.false_eq_true, if_false]
    rfl

/-- Witness for C2 (amended): a concrete three-column cloze line is accepted
with its extra column, and a concrete marker-free line is rejected. -/
theorem cloze_parser_min_three_witness :
    parse_cloze_line "S|a \x7b\x7bc1::b\x7d\x7d|E" = some ⟨"S", "a \x7b\x7bc1::b\x7d\x7d", "E"⟩
    ∧ parse_cloze_line "S|no marker here|E" = none := by
  constructor
  · have h := cloze_parser_min_three.2 "S|a \x7b\x7bc1::b\x7d\x7d|E" (by decide) (by decide)
      (by decide) (by decide)
    exact h.trans (by decide)
  · have h := cloze_parser_min_three.2 "S|no marker here|E" (by decide) (by decide)
      (by decide) (by decide)
    exact h.trans (by decide)

/-- Counterexample to C3: in one resolution pass with an empty field map over
the fields ["Text Extra", "Extra"], the two different cloze slots "text" and
"extra" are both mapped to field 0, although the unclaimed field 1 ("Extra")
matches the "extra" slot's keyword — the code keeps no record of claimed
fields and does not tokenize labels. -/
theorem widget_duplicate_assignment :
    widgetMapping "cloze" [] ["Text Extra", "Extra"] = [("text", some 0), ("extra", some 0)]
    ∧ containsSub (keywordOf "Extra / Notes") (lowerS "Extra") = true :=
  ⟨by decide, by decide⟩

/-- C3 as amended: fuzzy resolution lowercases the slot's label, keeps only
the text before the first '/', strips it, and selects the first field whose
lowercased name contains that keyword as a substring; when the stored mapping
exactly matches a field that field wins; each slot is resolved independently
of every other slot (no claim tracking), so two different slots can land on
the same field even when an unclaimed field with a matching keyword exists. -/
theorem widget_fuzzy_resolution (label current : String) (fields : List String) :
    (∀ i, fields.findIdx? (fun f => f == current) = some i →
      widgetSelect label current fields = some i)
    ∧ (fields.findIdx? (fun f => f == current) = none →
       ∀ i, fields.findIdx? (fun f => containsSub (keywordOf label) (lowerS f)) = some i →
         widgetSelect label current fields = some i)
    ∧ (∀ fmt fmap,
        widgetMapping fmt fmap fields =
          (slotMeta fmt).map (fun s => (s.1, widgetSelect s.2 (lookupD fmap s.1 "") fields)))
    ∧ (∃ flds : List String, widgetMapping "mcq" [] flds =
          [("question", some 0), ("choices", some 0), ("answer", some 0), ("extra", some 0)]
        ∧ containsSub (keywordOf "Extra / Notes") (lowerS (flds.getD 1 "")) = true) := by
  refine ⟨?_, ?_, fun fmt fmap => rfl, ⟨["Question Extra", "Extra"], by decide, by decide⟩⟩
  · intro i h
    unfold widgetSelect
    rw [h]
  · intro h i hk
    cases fields with
    | nil => simp [List.findIdx?] at hk
    | cons a t =>
      unfold widgetSelect
      rw [h, hk]
      simp [List.isEmpty]

/-- Witness for C3 (amended): an exact field-map match is selected. -/
theorem widget_fuzzy_resolution_witness :
    widgetSelect "Text" "Text" ["Other", "Text"] = some 1 :=
  (widget_fuzzy_resolution "Text" "Text" ["Other", "Text"]).1 1 (by decide)

theorem lookup_setField_self (st : List (String × String)) (f v : String) :
    (setField st f v).lookup f = some v := by
  induction st with
  | nil => simp [setField, List.lookup]
  | cons p t ih =>
    obtain ⟨k, w⟩ := p
    by_cases h : k = f
    · simp [setField, h, List.lookup]
    · have hbeq : (f == k) = false := by
        simp only [beq_eq_false_iff_ne]
        exact fun he => h he.symm
      simp [setField, h, List.lookup, hbeq, ih]

theorem lookup_setField_ne (st : List (String × String)) (f v f' : String) (h : f' ≠ f) :
    (setField st f v).lookup f' = st.lookup f' := by
  induction st with
  | nil =>
    have hbeq : (f' == f) = false := by simp only [beq_eq_false_iff_ne]; exact h
    simp [setField, List.lookup, hbeq]
  | cons p t ih =>
    obtain ⟨k, w⟩ := p
    by_cases hk : k = f
    · subst hk
      have hbeq : (f' == k) = false := by simp only [beq_eq_false_iff_ne]; exact h
      simp [setField, List.lookup, hbeq]
    · simp [setField, hk, List.lookup, ih]

theorem lookup_applyAssigns (asgns : List (Option String × String)) :
    ∀ (st : List (String × String)) (f : String),
      (applyAssigns st asgns).lookup f =
        (match lastAssign f asgns with
         | some w => some w
         | none => st.lookup f) := by
  induction asgns with
  | nil => intro st f; simp [applyAssigns, lastAssign]
  | cons a rest ih =>
    obtain ⟨of, v⟩ := a
    intro st f
    cases of with
    | none =>
      simp only [applyAssigns]
      rw [ih]
      cases hla : lastAssign f rest <;> simp [lastAssign, hla]
    | some g =>
      simp only [applyAssigns]
      rw [ih]
      cases hla : lastAssign f rest with
      | some w => simp [lastAssign, hla]
      | none =>
        by_cases hgf : g = f
        · subst hgf
          simp [lastAssign, hla, lookup_setField_self]
        · have : f ≠ g := fun he => hgf he.symm
          simp [lastAssign, hla, hgf, lookup_setField_ne st g v f this]

/-- C4 as amended: when several slots of one card record resolve to the same
destination field, the note-writing step does not merge — each `note[f] = v`
assignment overwrites, so the field ends up holding only the content of the
last slot (in source order question, choices, answer, extra; the extra slot's
content carries the appended image tag).  Stated for all three formats as a
full characterisation of every written field. -/
theorem same_field_last_slot_wins (fq fc fa fe ft : Option String) (mcard : MCQCard)
    (ccard : ClozeCard) (bcard : BasicCard) (img f : String) :
    ((noteFieldsMCQ fq fc fa fe mcard img).lookup f =
      if fe = some f then some (mcard.extra ++ img)
      else if fa = some f then some mcard.answer
      else if fc = some f then some mcard.choices
      else if fq = some f then some mcard.question
      else none)
    ∧ ((noteFieldsCloze ft fe ccard img).lookup f =
      if fe = some f then some (ccard.extra ++ img)
      else if ft = some f then some ccard.text
      else none)
    ∧ ((noteFieldsBasic fq fa fe bcard img).lookup f =
      if fe = some f then some (bcard.extra ++ img)
      else if fa = some f then some bcard.answer
      else if fq = some f then some bcard.question
      else none) := by
  refine ⟨?_, ?_, ?_⟩
  · unfold noteFieldsMCQ
    rw [lookup_applyAssigns]
    by_cases h4 : fe = some f <;> by_cases h3 : fa = some f <;>
      by_cases h2 : fc = some f <;> by_cases h1 : fq = some f <;>
      simp [lastAssign, h1, h2, h3, h4, List.lookup]
  · unfold noteFieldsCloze
    rw [lookup_applyAssigns]
    by_cases h2 : fe = some f <;> by_cases h1 : ft = some f <;>
      simp [lastAssign, h1, h2, List.lookup]
  · unfold noteFieldsBasic
    rw [lookup_applyAssigns]
    by_cases h3 : fe = some f <;> by_cases h2 : fa = some f <;>
      by_cases h1 : fq = some f <;>
      simp [lastAssign, h1, h2, h3, List.lookup]

/-- Counterexample to C4: question and choices both resolve to field "F"; the
resulting field value is exactly the choices content and does not contain the
question content "Q1" at all — nothing is concatenated. -/
theorem same_field_overwrites :
    (noteFieldsMCQ (some "F") (some "F") (some "G") (some "H")
        ⟨"S", "Q1", "C1", "AA", "EE"⟩ "[img]").lookup "F" = some "C1"
    ∧ containsSub "Q1" "C1" = false :=
  ⟨by decide, by decide⟩

theorem lookup_filter_keyne {α : Type} (l : List (String × α)) (key k' : String) :
    (l.filter (fun p => p.1 != key)).lookup k' =
      if k' = key then none else l.lookup k' := by
  induction l with
  | nil => by_cases h : k' = key <;> simp [List.lookup, h]
  | cons p t ih =>
    obtain ⟨k, v⟩ := p
    by_cases hk : k = key
    · subst hk
      by_cases hk' : k' = k
      · subst hk'
        simp [List.filter, List.lookup, ih]
      · have hbeq : (k' == k) = false := by simp only [beq_eq_false_iff_ne]; exact hk'
        simp [List.filter, List.lookup, ih, hk', hbeq]
    · have hbeq : (k != key) = true := by
        simp only [bne_iff_ne]
        exact hk
      by_cases hk' : k' = k
      · subst hk'
        have hne : ¬ k' = key := hk
        simp [List.filter, hbeq, List.lookup, hne]
      · have hbeq2 : (k' == k) = false := by simp only [beq_eq_false_iff_ne]; exact hk'
        simp [List.filter, hbeq, List.lookup, hbeq2, ih]

/-- C5: deleting a built-in profile key (MCQ, Cloze, Basic) is rejected and
leaves the profile set and active key unchanged; deleting a custom key (with
the confirmation answered yes) removes exactly that profile — every other
key's entry is untouched — and the active key falls back to the built-in
default "MCQ" exactly when the deleted profile was active. -/
theorem delete_profile_spec {α : Type} (profiles : List (String × α)) (active key : String) :
    (key ∈ builtinKeys → delete_profile profiles active key = (profiles, active, false))
    ∧ (key ∉ builtinKeys →
        (delete_profile profiles active key).2.2 = true
        ∧ (∀ k', (delete_profile profiles active key).1.lookup k' =
            if k' = key then none else profiles.lookup k')
        ∧ (delete_profile profiles active key).2.1 = (if active = key then "MCQ" else active)
        ∧ "MCQ" ∈ builtinKeys) := by
  constructor
  · intro h
    unfold delete_profile
    rw [if_pos h]
  · intro h
    unfold delete_profile
    rw [if_neg h]
    exact ⟨rfl, fun k' => lookup_filter_keyne profiles key k', rfl, by decide⟩

/-- Witness for C5: deleting the built-in "MCQ" changes nothing; deleting the
custom key "My Copy" succeeds. -/
theorem delete_profile_witness :
    delete_profile [("My Copy", 1)] "My Copy" "MCQ" = ([("My Copy", 1)], "My Copy", false)
    ∧ (delete_profile [("My Copy", 1)] "My Copy" "My Copy").2.2 = true :=
  ⟨(delete_profile_spec [("My Copy", 1)] "My Copy" "MCQ").1 (by decide),
   ((delete_profile_spec [("My Copy", 1)] "My Copy" "My Copy").2 (by decide)).1⟩

/-- Counterexample to C6: a malformed AI response (missing content/parts)
produces the message "Invalid response structure from API", whose lowercase
form contains "invalid", so the abort heuristic fires and the second file is
never processed — a non-authorization per-file failure aborted the run. -/
theorem malformed_response_aborts :
    importCalls [⟨true, ApiOutcome.invalidStructure, 0⟩, ⟨true, ApiOutcome.ok "x", 1⟩]
      = [(0, none)]
    ∧ apiMessage ApiOutcome.invalidStructure = some "Invalid response structure from API"
    ∧ shouldAbort "Invalid response structure from API" = true :=
  ⟨by decide, by decide, by decide⟩

/-- C6 as amended: a per-file AI failure aborts the run exactly when its
message contains "403" or, lowercased, "invalid".  Rate-limit (429), server
error (500), safety-filter, no-candidates and empty-response failures never
abort; HTTP 403 always does — but so does the malformed-structure message.
The loop continues past a non-aborting failure and stops right after an
aborting one. -/
theorem abort_heuristic_spec :
    (∀ body, abortsOn (ApiOutcome.httpErr 429 body) = false)
    ∧ (∀ body, abortsOn (ApiOutcome.httpErr 500 body) = false)
    ∧ abortsOn ApiOutcome.safetyFiltered = false
    ∧ abortsOn ApiOutcome.noCandidates = false
    ∧ abortsOn ApiOutcome.emptyText = false
    ∧ (∀ body, abortsOn (ApiOutcome.httpErr 403 body) = true)
    ∧ abortsOn ApiOutcome.invalidStructure = true
    ∧ (∀ (f : FileRun) rest prev i msg, f.mediaOk = true → apiMessage f.response = some msg →
        shouldAbort msg = false →
        importCallsAux (f :: rest) prev i = (i, prev) :: importCallsAux rest prev (i + 1))
    ∧ (∀ (f : FileRun) rest prev i msg, f.mediaOk = true → apiMessage f.response = some msg →
        shouldAbort msg = true →
        importCallsAux (f :: rest) prev i = [(i, prev)]) := by
  refine ⟨fun body => rfl, fun body => rfl, by decide, by decide, by decide,
    fun body => rfl, by decide, ?_, ?_⟩
  · intro f rest prev i msg hm hmsg hab
    simp [importCallsAux, hm, hmsg, hab]
  · intro f rest prev i msg hm hmsg hab
    simp [importCallsAux, hm, hmsg, hab]

/-- Witness for C6 (amended): a concrete no-candidates failure lets the loop
continue to the next file. -/
theorem abort_heuristic_spec_witness :
    importCallsAux [⟨true, ApiOutcome.noCandidates, 0⟩] none 0 =
      (0, none) :: importCallsAux [] none (0 + 1) :=
  abort_heuristic_spec.2.2.2.2.2.2.2.1 ⟨true, ApiOutcome.noCandidates, 0⟩ [] none 0
    "No response candidates from API" (by decide) (by decide) (by decide)

/-- Counterexample to C7: a stored config whose `profiles` key is present but
holds no "MCQ" entry is left completely unchanged (the absent built-in is not
recreated), and a present profile with a blank prompt keeps its blank prompt
(no seeding from the default). -/
theorem migration_skips_builtin_recreation :
    migrateConfig "P1" "P2" "P3" (some ⟨some [], some "MCQ"⟩) = (⟨some [], some "MCQ"⟩ : ConfigDoc)
    ∧ (([] : List (String × ProfileData)).lookup "MCQ") = none
    ∧ migrateConfig "P1" "P2" "P3"
        (some ⟨some [("MCQ", ⟨"Multiple Choice (MCQ)", "mcq", "", []⟩)], some "MCQ"⟩)
      = ⟨some [("MCQ", ⟨"Multiple Choice (MCQ)", "mcq", "", []⟩)], some "MCQ"⟩ :=
  ⟨by decide, by decide, by decide⟩

/-- C7 as amended: the load-time migration replaces a wholly missing config by
the default one, installs the full default profile set (and active key "MCQ")
only when the `profiles` key is entirely absent, and otherwise returns the
stored config unchanged — it never recreates individual built-in profiles,
never backfills structural fields, never seeds prompts, and in particular
never mutates any present profile set (custom or built-in, blank prompt or
not).  Migration is idempotent. -/
theorem migration_spec (mcqP clozeP basicP : String) (c : ConfigDoc) (s : Option ConfigDoc) :
    migrateConfig mcqP clozeP basicP none = get_default_config mcqP clozeP basicP
    ∧ (c.profiles = none → migrateConfig mcqP clozeP basicP (some c) =
        ⟨some (defaultProfiles mcqP clozeP basicP), some "MCQ"⟩)
    ∧ (∀ m, c.profiles = some m → migrateConfig mcqP clozeP basicP (some c) = c)
    ∧ migrateConfig mcqP clozeP basicP (some (migrateConfig mcqP clozeP basicP s)) =
        migrateConfig mcqP clozeP basicP s := by
  refine ⟨rfl, ?_, ?_, ?_⟩
  · intro h
    obtain ⟨pf, ap⟩ := c
    cases pf with
    | none => rfl
    | some m => exact absurd h (by simp)
  · intro m h
    obtain ⟨pf, ap⟩ := c
    cases pf with
    | none => exact absurd h (by simp)
    | some m2 => rfl
  · cases s with
    | none => rfl
    | some c2 =>
      obtain ⟨pf, ap⟩ := c2
      cases pf <;> rfl

/-- Witness for C7 (amended): a concrete present profile set is untouched. -/
theorem migration_spec_witness :
    migrateConfig "A" "B" "C" (some ⟨some [], some "X"⟩) = ⟨some [], some "X"⟩ :=
  (migration_spec "A" "B" "C" ⟨some [], some "X"⟩ none).2.2.1 [] rfl

theorem mem_joinSep {c : Char} {sep : List Char} :
    ∀ {L : List (List Char)}, c ∈ joinSep sep L → c ∈ sep ∨ ∃ x ∈ L, c ∈ x := by
  intro L
  induction L with
  | nil => intro h; simp [joinSep] at h
  | cons x t ih =>
    intro h
    cases t with
    | nil =>
      simp only [joinSep] at h
      exact Or.inr ⟨x, by simp, h⟩
    | cons y t2 =>
      simp only [joinSep, List.append_assoc, List.mem_append] at h
      rcases h with h | h | h
      · exact Or.inr ⟨x, by simp, h⟩
      · exact Or.inl h
      · rcases ih h with h2 | ⟨z, hz, hcz⟩
        · exact Or.inl h2
        · exact Or.inr ⟨z, by simp [hz], hcz⟩

theorem mem_sanitizedParts {x : List Char} {name : String} (hx : x ∈ sanitizedParts name) :
    (∀ c ∈ x, illegalDeckChar c = false) ∧ x ≠ [] := by
  unfold sanitizedParts at hx
  rw [List.mem_filterMap] at hx
  obtain ⟨part, hpart, hfx⟩ := hx
  by_cases h : pyStripL (part.filter (fun c => !(illegalDeckChar c))) = []
  · rw [if_pos h] at hfx
    cases hfx
  · rw [if_neg h] at hfx
    injection hfx with h2
    subst h2
    refine ⟨?_, h⟩
    intro c hc
    have hmem := mem_pyStripL hc
    rw [List.mem_filter] at hmem
    simpa using hmem.2

/-- Counterexample to C8: a lone colon survives sanitization — the regex class
omits `:` — so the output contains a `:` that is not part of any `::`
hierarchy separator. -/
theorem sanitize_keeps_single_colon :
    sanitize_deck_name "A:B" = "A:B"
    ∧ containsSub ":" "A:B" = true
    ∧ containsSub "::" "A:B" = false :=
  ⟨by decide, by decide, by decide⟩

/-- C8 as amended: sanitization removes the characters `\ / * ? " < > |`
inside every `::`-segment (the colon itself is not removed, so lone colons
survive), drops segments that become empty, never returns the empty string
(falling back to "Imported"), and maps "A/B::C*D" to "AB::CD". -/
theorem sanitize_spec (s : String) :
    (∀ c ∈ (sanitize_deck_name s).data, illegalDeckChar c = false)
    ∧ sanitize_deck_name s ≠ ""
    ∧ sanitize_deck_name "A/B::C*D" = "AB::CD" := by
  refine ⟨?_, ?_, by decide⟩
  · intro c hc
    unfold sanitize_deck_name at hc
    by_cases h : joinSep [':', ':'] (sanitizedParts s) = []
    · rw [if_pos h] at hc
      have hc2 : c ∈ ['I', 'm', 'p', 'o', 'r', 't', 'e', 'd'] := hc
      simp only [List.mem_cons, List.not_mem_nil, or_false] at hc2
      rcases hc2 with rfl | rfl | rfl | rfl | rfl | rfl | rfl | rfl <;> rfl
    · rw [if_neg h] at hc
      have hc2 : c ∈ joinSep [':', ':'] (sanitizedParts s) := hc
      rcases mem_joinSep hc2 with hsep | ⟨x, hx, hcx⟩
      · simp only [List.mem_cons, List.not_mem_nil, or_false] at hsep
        rcases hsep with rfl | rfl <;> rfl
      · exact (mem_sanitizedParts hx).1 c hcx
  · unfold sanitize_deck_name
    by_cases h : joinSep [':', ':'] (sanitizedParts s) = []
    · rw [if_pos h]; decide
    · rw [if_neg h]
      intro heq
      apply h
      have hdata := congrArg String.data heq
      simpa using hdata

/-- Witness for C8 (amended): concrete instances of the no-illegal-characters
and non-emptiness guarantees. -/
theorem sanitize_spec_witness :
    illegalDeckChar 'c' = false ∧ sanitize_deck_name "abc" ≠ "" :=
  ⟨(sanitize_spec "abc").1 'c' (by decide), (sanitize_spec "abc").2.1⟩

theorem importCallsAux_success (files : List FileRun) :
    ∀ (prev : Option Nat) (i : Nat), (∀ f ∈ files, fullSuccess f) →
      importCallsAux files prev i =
        (List.range files.length).map
          (fun j => (i + j, if j = 0 then prev else some (i + j - 1))) := by
  induction files with
  | nil => intro prev i h; simp [importCallsAux]
  | cons f t ih =>
    intro prev i h
    obtain ⟨h1, h2, h3⟩ := h f (by simp)
    have ht : ∀ g ∈ t, fullSuccess g := fun g hg => h g (by simp [hg])
    have hstep : importCallsAux (f :: t) prev i =
        (i, prev) :: importCallsAux t (some i) (i + 1) := by
      simp [importCallsAux, h1, h2, h3]
    rw [hstep, ih (some i) (i + 1) ht]
    rw [List.length_cons, List.range_succ_eq_map, List.map_cons, List.map_map]
    refine congrArg₂ List.cons (by simp) ?_
    apply List.map_congr_left
    intro j hj
    cases j with
    | zero => simp
    | succ j2 =>
      simp only [Function.comp_apply]
      rw [Prod.ext_iff]
      constructor
      · simp; omega
      · simp only [Nat.succ_ne_zero, if_false, reduceIte, Option.some.injEq]
        omega

/-- Counterexample to C9: in a run [ok, rate-limited, ok] the third file's AI
call receives file 0 as context, not its immediately preceding file 1 (whose
non-aborting failure left `prev_file_path` untouched). -/
theorem context_not_immediate_predecessor :
    importCalls [⟨true, ApiOutcome.ok "a", 1⟩, ⟨true, ApiOutcome.httpErr 429 "", 0⟩,
                 ⟨true, ApiOutcome.ok "b", 2⟩]
      = [(0, none), (1, some 0), (2, some 0)]
    ∧ ((2 : Nat), some (1 : Nat)) ∉
        importCalls [⟨true, ApiOutcome.ok "a", 1⟩, ⟨true, ApiOutcome.httpErr 429 "", 0⟩,
                     ⟨true, ApiOutcome.ok "b", 2⟩] :=
  ⟨by decide, by decide⟩

/-- C9 as amended: the context image sent with a file is the most recent
earlier file that was processed end to end (media added, AI call succeeded,
at least one card parsed); `prev_file_path` is unchanged by any skipped file.
When every file succeeds this is exactly the immediately preceding file, the
first file getting none; and a request never carries more than one prior
image (one without a context file, two with). -/
theorem context_image_spec :
    (∀ files : List FileRun, (∀ f ∈ files, fullSuccess f) →
      importCalls files = (List.range files.length).map
        (fun j => (j, if j = 0 then none else some (j - 1))))
    ∧ (∀ (f : FileRun) rest prev i msg, f.mediaOk = true → apiMessage f.response = some msg →
        shouldAbort msg = false →
        importCallsAux (f :: rest) prev i = (i, prev) :: importCallsAux rest prev (i + 1))
    ∧ (∀ (f : FileRun) rest prev i, f.mediaOk = true → apiMessage f.response = none →
        f.cardCount = 0 →
        importCallsAux (f :: rest) prev i = (i, prev) :: importCallsAux rest prev (i + 1))
    ∧ (∀ (f : FileRun) rest prev i, f.mediaOk = false →
        importCallsAux (f :: rest) prev i = importCallsAux rest prev (i + 1))
    ∧ (∀ (f : FileRun) rest prev i, fullSuccess f →
        importCallsAux (f :: rest) prev i = (i, prev) :: importCallsAux rest (some i) (i + 1))
    ∧ (∀ prompt cur, imageCount (geminiParts prompt none cur) = 1)
    ∧ (∀ prompt prev cur, imageCount (geminiParts prompt (some prev) cur) = 2) := by
  refine ⟨?_, ?_, ?_, ?_, ?_, fun prompt cur => rfl, fun prompt prev cur => rfl⟩
  · intro files h
    unfold importCalls
    rw [importCallsAux_success files none 0 h]
    apply List.map_congr_left
    intro j hj
    simp
  · intro f rest prev i msg hm hmsg hab
    simp [importCallsAux, hm, hmsg, hab]
  · intro f rest prev i hm hmsg hcc
    simp [importCallsAux, hm, hmsg, hcc]
  · intro f rest prev i hm
    simp [importCallsAux, hm]
  · intro f rest prev i hs
    obtain ⟨h1, h2, h3⟩ := hs
    simp [importCallsAux, h1, h2, h3]

/-- Witness for C9 (amended): a fully successful two-file run chains the
context exactly one file back. -/
theorem context_image_spec_witness :
    importCalls [⟨true, ApiOutcome.ok "t", 1⟩, ⟨true, ApiOutcome.ok "u", 1⟩] =
      (List.range 2).map (fun j => (j, if j = 0 then none else some (j - 1))) :=
  context_image_spec.1 [⟨true, ApiOutcome.ok "t", 1⟩, ⟨true, ApiOutcome.ok "u", 1⟩] (by decide)

end AnkiImporter
